import Mathlib

/-!
Shallow embedding of the MiCoNE (mindpipe) pipeline core: the stage
descriptor model of mindpipe/config/params.py and the subprocess wrapper
of mindpipe/pipelines/command.py.

Modelling conventions. Python strings appear as lists of characters
where splitting and joining matter and as String elsewhere. Python sets
of records appear as duplicate-free lists: set.add is a no-op when an
equal element is already present and otherwise appends, while set.remove
erases the equal element. Python dicts appear as association lists whose
assignment overwrites an existing key in place and appends a fresh key.
Raised exceptions are values of an error type, and an operation that
mutates the instance before raising returns the mutated state next to
the error it raised. The filesystem is a predicate on path strings, and
a posix path is absolute exactly when its text starts with a slash.
-/

namespace Mindpipe

/-- Exceptions that the embedded code raises. -/
inductive PyErr where
  | valueError
  | keyError
  | typeError
  | fileNotFoundError
  | timeoutExpired
  | notImplementedError
  | attributeError
deriving DecidableEq, Repr

/-- A Python string viewed as its sequence of characters. -/
abbrev PyStr := List Char

/-- Python str.split with separator a single space: every space is a
cut point and empty pieces between consecutive spaces are kept. -/
def pySplit (s : PyStr) : List PyStr := s.splitOn ' '

/-- Python " ".join over a list of pieces. -/
def pyJoin (parts : List PyStr) : PyStr := [' '].intercalate parts

/-- An abstract child process as command.py observes it: the arguments
it was launched with, the time it needs to finish, and the text it
writes on its two streams. -/
structure Proc where
  args : List PyStr
  duration : Nat
  stdoutText : PyStr
  stderrText : PyStr
deriving DecidableEq, Repr

/-- The state of a Command instance (command.py, class Command): the
profile, the built argument vector self._cmd, the time limit
self._timeout, the two capture slots self._stdout and self._stderr, and
the optional process handle self.process. -/
structure Command where
  profile : String
  cmdVec : List PyStr
  timeout : Nat
  stdoutCap : Option PyStr
  stderrCap : Option PyStr
  process : Option Proc
deriving DecidableEq, Repr

/-- Command._build_cmd: the local profile keeps the split command, the
sge profile puts the qsub word in front of it, and every other profile
raises ValueError. -/
def build_cmd (profile : String) (cmd : PyStr) : Except PyErr (List PyStr) :=
  if profile = "local" then .ok (pySplit cmd)
  else if profile = "sge" then .ok ("qsub".toList :: pySplit cmd)
  else .error .valueError

/-- Command.__init__: store the profile, build the argument vector with
build_cmd, store the time limit; both capture slots and the process
handle start out as None. -/
def commandInit (cmd : PyStr) (profile : String) (timeout : Nat) :
    Except PyErr Command :=
  match build_cmd profile cmd with
  | .error e => .error e
  | .ok v => .ok ⟨profile, v, timeout, none, none, none⟩

/-- Command.cmd property: the argument vector joined with spaces. -/
def Command.cmdStr (c : Command) : PyStr := pyJoin c.cmdVec

/-- Command.run: launch the argument vector as a child process; the run
duration and the stream texts of the launched process are facts of the
environment, passed in as arguments. -/
def Command.runProc (c : Command) (duration : Nat) (outText errText : PyStr) :
    Command :=
  { c with process := some ⟨c.cmdVec, duration, outText, errText⟩ }

/-- Popen.communicate with a timeout: both stream texts when the process
finishes inside the limit, TimeoutExpired otherwise. -/
def communicate (p : Proc) (timeout : Nat) : Except PyErr (PyStr × PyStr) :=
  if p.duration ≤ timeout then .ok (p.stdoutText, p.stderrText) else .error .timeoutExpired

/-- Command.wait: a silent no-op when no process was launched; otherwise
communicate with the process and store both captures on success, while a
timeout propagates and leaves the state exactly as it was. -/
def Command.wait (c : Command) : Option PyErr × Command :=
  match c.process with
  | none => (none, c)
  | some p =>
    match communicate p c.timeout with
    | .error e => (some e, c)
    | .ok (outText, errText) =>
      (none, { c with stdoutCap := some outText, stderrCap := some errText })

/-- Command.output property: the cached stdout when present, otherwise a
blocking communicate that fills both caches, and NotImplementedError
when the command was never run. -/
def Command.outputProp (c : Command) : Except PyErr (PyStr × Command) :=
  match c.stdoutCap with
  | some s => .ok (s, c)
  | none =>
    match c.process with
    | none => .error .notImplementedError
    | some p =>
      match communicate p c.timeout with
      | .error e => .error e
      | .ok (outText, errText) =>
        .ok (outText, { c with stdoutCap := some outText, stderrCap := some errText })

/-- Command.error property: the cached stderr when present, otherwise a
blocking communicate that fills both caches, and NotImplementedError
when the command was never run. -/
def Command.errorProp (c : Command) : Except PyErr (PyStr × Command) :=
  match c.stderrCap with
  | some s => .ok (s, c)
  | none =>
    match c.process with
    | none => .error .notImplementedError
    | some p =>
      match communicate p c.timeout with
      | .error e => .error e
      | .ok (outText, errText) =>
        .ok (errText, { c with stdoutCap := some outText, stderrCap := some errText })

/-- Command.proc_cmd_sync: compare self._cmd with self.process.args;
reading the args attribute of the absent process handle None raises
AttributeError, so a boolean comes back only after a launch. -/
def Command.proc_cmd_sync (c : Command) : Except PyErr Bool :=
  match c.process with
  | none => .error .attributeError
  | some p => .ok (c.cmdVec == p.args)

/-- The Input namedtuple of params.py: a datatype tag, the accepted
format list, and an optional location. Its __hash__ is overridden to
hash only the datatype, while equality stays the componentwise tuple
equality of NamedTuple. -/
structure Input where
  datatype : String
  format : List String
  location : Option String
deriving DecidableEq, Repr

/-- The hash key of an Input: Input.__hash__ hashes self.datatype. -/
def Input.hashKey (i : Input) : String := i.datatype

/-- The Output namedtuple of params.py: like Input; its location slot
has no default but _process_io still stores None for a missing one, so
it is optional here as well. __hash__ again covers only the datatype. -/
structure Output where
  datatype : String
  format : List String
  location : Option String
deriving DecidableEq, Repr

/-- The hash key of an Output: Output.__hash__ hashes self.datatype. -/
def Output.hashKey (o : Output) : String := o.datatype

/-- The Parameters namedtuple of params.py: a process name and its
parameter dict, hashed by the process name. -/
structure Parameters where
  process : String
  params : List (String × String)
deriving DecidableEq, Repr

/-- Python set.add on the duplicate-free list model of a set: a no-op
when an equal element is already present, otherwise append. -/
def setAdd {α : Type} [DecidableEq α] (l : List α) (x : α) : List α :=
  if x ∈ l then l else l ++ [x]

/-- Python dict assignment d[k] = v on the association-list model:
overwrite the value in place when the key exists, append otherwise. -/
def dictInsert {β : Type} (d : List (String × β)) (k : String) (v : β) :
    List (String × β) :=
  if d.any (fun kv => kv.fst == k) then
    d.map (fun kv => if kv.fst == k then (k, v) else kv)
  else d ++ [(k, v)]

/-- Python dict lookup d[k] as an option. -/
def dictGet {β : Type} (d : List (String × β)) (k : String) : Option β :=
  (d.find? (fun kv => kv.fst == k)).map (fun kv => kv.snd)

/-- The Python dict merge that merge builds with double unpacking:
start from the left dict and assign every pair of the right dict in
order, so the right side wins on shared keys. -/
def dictMerge {β : Type} (a b : List (String × β)) : List (String × β) :=
  b.foldl (fun d kv => dictInsert d kv.fst kv.snd) a

/-- The mutable state of a Params instance: name, output_location and
the three record sets. The root and env path fields only undergo
existence checks during construction and play no part in the operations
verified here, so they are not carried. -/
structure Params where
  name : String
  output_location : String
  input : List Input
  output : List Output
  parameters : List Parameters
deriving DecidableEq, Repr

/-- Params.get for the input category: the first element of the set
whose datatype matches, or KeyError. -/
def Params.getInput (p : Params) (name : String) : Option Input :=
  p.input.find? (fun e => e.datatype == name)

/-- Params.get for the output category: the first element of the set
whose datatype matches, or KeyError. -/
def Params.getOutput (p : Params) (name : String) : Option Output :=
  p.output.find? (fun e => e.datatype == name)

/-- Params.get for the parameters category: the first record whose
process name matches, or KeyError. -/
def Params.getParameters (p : Params) (name : String) : Option Parameters :=
  p.parameters.find? (fun e => e.process == name)

/-- Params.update_location for the input category: fetch the element by
datatype (KeyError when absent), then remove it from the set and add the
copy that keeps its datatype and format and carries the new location. -/
def Params.update_location_input (p : Params) (name : String) (loc : Option String) :
    Except PyErr Params :=
  match Params.getInput p name with
  | none => .error .keyError
  | some e =>
    .ok { p with input := setAdd (p.input.erase e) ⟨e.datatype, e.format, loc⟩ }

/-- The loop body of Params.attach_to: walk a snapshot of the input set
and, for each input, look up the same-datatype output of the previous
stage (KeyError when absent) and copy its location in through
update_location. -/
def attachGo (prev : Params) : List Input → Params → Except PyErr Params
  | [], p => .ok p
  | i :: rest, p =>
    match Params.getOutput prev i.datatype with
    | none => .error .keyError
    | some o =>
      match Params.update_location_input p i.datatype o.location with
      | .error e => .error e
      | .ok p2 => attachGo prev rest p2

/-- Params.attach_to: update the inputs of the current instance from
the outputs of the previous one. -/
def Params.attach_to (p prev : Params) : Except PyErr Params :=
  attachGo prev p.input p

/-- One input override of the user settings document. -/
structure UserInput where
  datatype : String
  format : List String
  location : Option String
deriving DecidableEq, Repr

/-- The user settings document for one stage: the input override list
and the parameter override list; each parameter override is the raw
override dict whose process key names the target record. -/
structure UserSettings where
  input : List UserInput
  parameters : List (List (String × String))
deriving DecidableEq, Repr

/-- The input half of Params.merge: for each override in order, fetch
the matching input by datatype (KeyError when absent), raise ValueError
when some requested format is not in the accepted list of the fetched
input, and otherwise replace the input with one carrying the requested
format list and location. The pair returned is the exception, if one
was raised, next to the input set as mutated so far. -/
def mergeInputsGo : List Input → List UserInput → Option PyErr × List Input
  | inp, [] => (none, inp)
  | inp, u :: rest =>
    match inp.find? (fun e => e.datatype == u.datatype) with
    | none => (some .keyError, inp)
    | some io =>
      if u.format.all (fun f => io.format.contains f) then
        mergeInputsGo (setAdd (inp.erase io) ⟨io.datatype, u.format, u.location⟩) rest
      else (some .valueError, inp)

/-- The parameter half of Params.merge: for each override dict in order,
read its process entry and fetch the matching record (KeyError when
either is absent), then replace the record with one whose params are the
old params merged with the whole override dict, override winning. -/
def mergeParamsGo :
    List Parameters → List (List (String × String)) → Option PyErr × List Parameters
  | ps, [] => (none, ps)
  | ps, u :: rest =>
    match dictGet u "process" with
    | none => (some .keyError, ps)
    | some procName =>
      match ps.find? (fun e => e.process == procName) with
      | none => (some .keyError, ps)
      | some item =>
        mergeParamsGo (setAdd (ps.erase item) ⟨item.process, dictMerge item.params u⟩) rest

/-- Params.merge: run the input override loop, then the parameter
override loop; the exception of the first loop that raises propagates,
and the state keeps every mutation made before that point. -/
def Params.merge (p : Params) (us : UserSettings) : Option PyErr × Params :=
  match mergeInputsGo p.input us.input with
  | (some e, inp2) => (some e, { p with input := inp2 })
  | (none, inp2) =>
    match mergeParamsGo p.parameters us.parameters with
    | (some e, ps2) => (some e, { p with input := inp2, parameters := ps2 })
    | (none, ps2) => (none, { p with input := inp2, parameters := ps2 })

/-- Posix path absoluteness: the text starts with a slash. -/
def isAbsolute (s : String) : Bool :=
  match s.data with
  | [] => false
  | c :: _ => c == '/'

/-- The input loop of Params.verify_io over a filesystem fs: ValueError
for a missing location, FileNotFoundError for a location that does not
exist. -/
def verifyInputs (fs : String → Bool) : List Input → Option PyErr
  | [] => none
  | e :: rest =>
    match e.location with
    | none => some .valueError
    | some l => if fs l then verifyInputs fs rest else some .fileNotFoundError

/-- The output loop of Params.verify_io: ValueError for a missing or
non-absolute location. -/
def verifyOutputs : List Output → Option PyErr
  | [] => none
  | e :: rest =>
    match e.location with
    | none => some .valueError
    | some l => if isAbsolute l then verifyOutputs rest else some .valueError

/-- Params.verify_io: the output location of the stage must be absolute,
every input location must be set and exist on fs, and every output
location must be set and absolute; the first violation raises. -/
def Params.verifyPaths (p : Params) (fs : String → Bool) : Option PyErr :=
  if isAbsolute p.output_location then
    match verifyInputs fs p.input with
    | some e => some e
    | none => verifyOutputs p.output
  else some .valueError

/-- Python str applied to a location: the path text, or the text None
for a missing location (unreachable after verify_io succeeds). -/
def strLoc : Option String → String
  | some l => l
  | none => "None"

/-- A value of the dictionary that the dict property returns: the nested
datatype-to-location dict under the input and output keys, the path
under output_dir, or the param dict of one parameter record. -/
inductive DVal where
  | iomap : List (String × String) → DVal
  | path : String → DVal
  | pmap : List (String × String) → DVal
deriving DecidableEq, Repr

/-- The dict comprehension over the input set: datatype to location. -/
def inputMap (l : List Input) : List (String × String) :=
  l.foldl (fun d e => dictInsert d e.datatype (strLoc e.location)) []

/-- The dict comprehension over the output set: datatype to location. -/
def outputMap (l : List Output) : List (String × String) :=
  l.foldl (fun d e => dictInsert d e.datatype (strLoc e.location)) []

/-- The Params.dict property: run verify_io, then build the dictionary
whose input, output and output_dir keys are assigned first, followed by
one assignment per parameter record under its process name. -/
def Params.dictProp (p : Params) (fs : String → Bool) :
    Except PyErr (List (String × DVal)) :=
  match Params.verifyPaths p fs with
  | some e => .error e
  | none =>
    .ok (p.parameters.foldl (fun d pr => dictInsert d pr.process (.pmap pr.params))
      [("input", .iomap (inputMap p.input)),
       ("output", .iomap (outputMap p.output)),
       ("output_dir", .path p.output_location)])

/-- A constructed Params object as the registry sees it: Python object
identity is modelled by an allocation id. Params overrides __hash__ (by
name) but not __eq__, so set membership for these objects falls back to
object identity. -/
structure ParamsObj where
  oid : Nat
  name : String
deriving DecidableEq, Repr

/-- Python is for Params objects: identity of allocation. -/
def pyIs (a b : ParamsObj) : Bool := a.oid == b.oid

/-- Python set.add for Params objects: membership by identity. -/
def setAddObj (l : List ParamsObj) (x : ParamsObj) : List ParamsObj :=
  if l.any (fun q => pyIs q x) then l else l ++ [x]

/-- The loop of ParamsSet.__init__ over the catalog items: each
iteration constructs a fresh Params object (a fresh allocation id) from
the pair, raises ValueError with the duplicate message when the fresh
object is already a member of the set, and adds it otherwise. The
definition payload of a pair only feeds the per-entry construction
checks, which are not at issue here. -/
def paramsSetInitGo {α : Type} :
    List ParamsObj → Nat → List (String × α) → Except PyErr (List ParamsObj)
  | procs, _, [] => .ok procs
  | procs, fresh, (n, _) :: rest =>
    if procs.any (fun q => pyIs q ⟨fresh, n⟩) then .error .valueError
    else paramsSetInitGo (setAddObj procs ⟨fresh, n⟩) (fresh + 1) rest

/-- ParamsSet.__init__: start from the empty process set and fold the
catalog items through the construction loop. -/
def paramsSetInit {α : Type} (catalog : List (String × α)) :
    Except PyErr (List ParamsObj) :=
  paramsSetInitGo [] 0 catalog

/-- ExternalParamsSet.__init__ flattening: the three nested catalog
levels are joined with dots into one flat dict before the base
constructor runs; a repeated dotted name silently overwrites the earlier
entry because the flat container is a dict. -/
def externalFlatten {α : Type}
    (data : List (String × List (String × List (String × α)))) :
    List (String × α) :=
  data.foldl (fun acc l1 =>
    l1.snd.foldl (fun acc2 l2 =>
      l2.snd.foldl (fun acc3 l3 =>
        dictInsert acc3 (l1.fst ++ "." ++ l2.fst ++ "." ++ l3.fst) l3.snd) acc2) acc) []

/-- The location an input receives from attach_to: the location of the
same-datatype output of the previous stage, when that output exists. -/
def updCopy (prev : Params) (i : Input) : Input :=
  match Params.getOutput prev i.datatype with
  | some o => ⟨i.datatype, i.format, o.location⟩
  | none => i

/-- Splitting a command string never yields an empty piece list. -/
theorem pySplit_ne_nil (s : PyStr) : pySplit s ≠ [] := by
  simp only [pySplit, List.splitOn]
  exact List.splitOnP_ne_nil _ s

/-- Joining the pieces of a split command gives the command back. -/
theorem pyJoin_pySplit (s : PyStr) : pyJoin (pySplit s) = s :=
  List.intercalate_splitOn s ' '

/-- Joining a nonempty piece list after a fresh head inserts one space
after the head. -/
theorem pyJoin_cons_of_ne_nil (x : PyStr) (parts : List PyStr) (h : parts ≠ []) :
    pyJoin (x :: parts) = x ++ [' '] ++ pyJoin parts := by
  cases parts with
  | nil => exact absurd rfl h
  | cons y l => simp [pyJoin, List.intercalate, List.intersperse]

/-- C1 (amended): for every command string, construction with profile
local yields cmd equal to the original string unchanged (split on
spaces into an argument vector and rejoined), construction with profile
sge yields cmd equal to the batch-submission program name qsub and a
space prepended to the original string, and construction with any
profile outside the two-element set of local and sge raises ValueError;
the profile named grid in the specification is such an outside
profile. -/
theorem c1_command_profiles (s : PyStr) (p : String) (t : Nat) :
    (commandInit s "local" t).map Command.cmdStr = .ok s ∧
    (commandInit s "sge" t).map Command.cmdStr = .ok ("qsub ".toList ++ s) ∧
    (p ≠ "local" → p ≠ "sge" → commandInit s p t = .error .valueError) := by
  refine ⟨?_, ?_, fun h1 h2 => ?_⟩
  · have hb : build_cmd "local" s = .ok (pySplit s) := by
      unfold build_cmd
      rw [if_pos rfl]
    simp [commandInit, hb, Command.cmdStr, Except.map, pyJoin_pySplit]
  · have hb : build_cmd "sge" s = .ok ("qsub".toList :: pySplit s) := by
      unfold build_cmd
      rw [if_neg (by decide), if_pos rfl]
    have hj : pyJoin ("qsub".toList :: pySplit s) = "qsub ".toList ++ s := by
      rw [pyJoin_cons_of_ne_nil _ _ (pySplit_ne_nil s), pyJoin_pySplit]
      rfl
    simp only [commandInit, hb, Except.map, Command.cmdStr]
    rw [hj]
  · have hb : build_cmd p s = .error .valueError := by
      unfold build_cmd
      rw [if_neg h1, if_neg h2]
    simp [commandInit, hb]

/-- C1 witness: a concrete unsupported profile raises ValueError. -/
theorem c1_command_profiles_witness :
    commandInit "echo hi".toList "pbs" 1000 = .error .valueError :=
  (c1_command_profiles "echo hi".toList "pbs" 1000).2.2 (by decide) (by decide)

/-- C1 counterexample: the profile string grid of the claim does not
produce a qsub command; it raises ValueError, while the profile the
code actually dispatches on is sge. -/
theorem c1_grid_counterexample :
    commandInit "echo hi".toList "grid" 1000 = .error .valueError ∧
    (commandInit "echo hi".toList "sge" 1000).map Command.cmdStr
      = .ok "qsub echo hi".toList := by
  exact ⟨rfl, rfl⟩

/-- C8: when a process was launched and does not finish inside the
configured time limit, wait propagates TimeoutExpired and returns the
state unchanged, so both capture slots keep exactly their previous
(absent) values. -/
theorem c8_wait_timeout (c : Command) (p : Proc) (hp : c.process = some p)
    (hd : c.timeout < p.duration) :
    Command.wait c = (some .timeoutExpired, c) := by
  have hc : communicate p c.timeout = .error .timeoutExpired := by
    unfold communicate
    rw [if_neg (by omega)]
  simp [Command.wait, hp, hc]

/-- C8 witness: a concrete launched command whose process outlives the
limit times out with untouched captures. -/
theorem c8_wait_timeout_witness :
    Command.wait ⟨"local", ["ls".toList], 5, none, none, some ⟨["ls".toList], 10, [], []⟩⟩
      = (some .timeoutExpired,
         ⟨"local", ["ls".toList], 5, none, none, some ⟨["ls".toList], 10, [], []⟩⟩) :=
  c8_wait_timeout _ ⟨["ls".toList], 10, [], []⟩ rfl (by decide)

/-- C9: wait on a command that was never run returns without an
exception and without touching the capture slots, while the output and
error accessors raise NotImplementedError in that same state. -/
theorem c9_wait_never_run (c : Command) (hp : c.process = none)
    (hso : c.stdoutCap = none) (hse : c.stderrCap = none) :
    Command.wait c = (none, c) ∧
    Command.outputProp c = .error .notImplementedError ∧
    Command.errorProp c = .error .notImplementedError := by
  refine ⟨?_, ?_, ?_⟩
  · unfold Command.wait
    rw [hp]
  · unfold Command.outputProp
    rw [hso, hp]
  · unfold Command.errorProp
    rw [hse, hp]

/-- C9 witness: a concrete never-launched command. -/
theorem c9_wait_never_run_witness :
    Command.wait ⟨"local", ["ls".toList], 1000, none, none, none⟩
      = (none, ⟨"local", ["ls".toList], 1000, none, none, none⟩) ∧
    Command.outputProp ⟨"local", ["ls".toList], 1000, none, none, none⟩
      = .error .notImplementedError ∧
    Command.errorProp ⟨"local", ["ls".toList], 1000, none, none, none⟩
      = .error .notImplementedError :=
  c9_wait_never_run _ rfl rfl rfl

/-- C10: proc_cmd_sync is partial at the public interface: with no
launched process it raises AttributeError by dereferencing the absent
handle instead of returning a boolean, and under the precondition that
a process was launched it returns the boolean comparing the configured
argument vector with the launch arguments. -/
theorem c10_proc_cmd_sync_domain (c : Command) :
    (c.process = none → Command.proc_cmd_sync c = .error .attributeError) ∧
    (∀ p, c.process = some p → Command.proc_cmd_sync c = .ok (c.cmdVec == p.args)) := by
  constructor
  · intro h
    unfold Command.proc_cmd_sync
    rw [h]
  · intro p h
    unfold Command.proc_cmd_sync
    rw [h]

/-- C10 witness: a concrete never-launched command raises; the same
command after a launch returns a boolean. -/
theorem c10_proc_cmd_sync_domain_witness :
    Command.proc_cmd_sync ⟨"local", ["ls".toList], 1000, none, none, none⟩
      = .error .attributeError ∧
    Command.proc_cmd_sync
      (Command.runProc ⟨"local", ["ls".toList], 1000, none, none, none⟩ 1 [] [])
      = .ok true :=
  ⟨(c10_proc_cmd_sync_domain _).1 rfl,
   (c10_proc_cmd_sync_domain _).2 ⟨["ls".toList], 1, [], []⟩ rfl⟩

/-- C4 counterexample: two inputs with the same datatype but different
format lists share the hash key yet are unequal namedtuples, so adding
both to a set keeps two elements of that datatype; the set is not a map
keyed by datatype. -/
theorem c4_hash_only_counterexample :
    Input.hashKey ⟨"otu_table", ["tsv"], none⟩ = Input.hashKey ⟨"otu_table", ["csv"], none⟩ ∧
    (⟨"otu_table", ["tsv"], none⟩ : Input) ≠ ⟨"otu_table", ["csv"], none⟩ ∧
    ((setAdd (setAdd ([] : List Input) ⟨"otu_table", ["tsv"], none⟩)
        ⟨"otu_table", ["csv"], none⟩).filter
      (fun e => e.datatype == "otu_table")).length = 2 :=
  ⟨rfl, by decide, by decide⟩

/-- C4 (amended): the hash of an IO descriptor is determined by the
datatype field alone, but equality stays the full componentwise tuple
equality, so a second same-datatype insertion collapses exactly when
every field agrees and otherwise the set keeps both descriptors. -/
theorem c4_identity_amended (i1 i2 : Input) (o1 o2 : Output) :
    (Input.hashKey i1 = Input.hashKey i2 ↔ i1.datatype = i2.datatype) ∧
    (Output.hashKey o1 = Output.hashKey o2 ↔ o1.datatype = o2.datatype) ∧
    (i1 = i2 ↔ i1.datatype = i2.datatype ∧ i1.format = i2.format ∧
      i1.location = i2.location) ∧
    (i1 ≠ i2 → setAdd (setAdd [] i1) i2 = [i1, i2]) ∧
    (i1 = i2 → setAdd (setAdd [] i1) i2 = [i1]) := by
  refine ⟨Iff.rfl, Iff.rfl, ?_, fun h => ?_, fun h => ?_⟩
  · cases i1
    cases i2
    simp [Input.mk.injEq]
  · have h2 : ¬ i2 = i1 := fun he => h he.symm
    simp [setAdd, h2]
  · subst h
    simp [setAdd]

/-- C4 amended witness: a concrete same-datatype pair stays apart. -/
theorem c4_identity_amended_witness :
    setAdd (setAdd ([] : List Input) ⟨"x", ["a"], none⟩) ⟨"x", ["b"], none⟩
      = [⟨"x", ["a"], none⟩, ⟨"x", ["b"], none⟩] :=
  (c4_identity_amended ⟨"x", ["a"], none⟩ ⟨"x", ["b"], none⟩ ⟨"y", [], none⟩
    ⟨"y", [], none⟩).2.2.2.1 (by decide)

/-- Helper for the registry: the construction loop never raises, since
membership of a freshly allocated object is decided by object identity
and the fresh allocation id exceeds every id already in the set. -/
theorem paramsSetInitGo_ok {α : Type} (cat : List (String × α)) :
    ∀ (procs : List ParamsObj) (fresh : Nat), (∀ q ∈ procs, q.oid < fresh) →
      ∃ res, paramsSetInitGo procs fresh cat = .ok res ∧
        res.length = procs.length + cat.length := by
  induction cat with
  | nil =>
    intro procs fresh _
    exact ⟨procs, rfl, by simp [paramsSetInitGo]⟩
  | cons hd rest ih =>
    intro procs fresh h
    obtain ⟨n, a⟩ := hd
    have hany : procs.any (fun q => pyIs q ⟨fresh, n⟩) = false := by
      rw [List.any_eq_false]
      intro q hq
      have hlt := h q hq
      simp [pyIs]
      omega
    obtain ⟨res, hres, hlen⟩ := ih (procs ++ [⟨fresh, n⟩]) (fresh + 1) (by
      intro q hq
      rcases List.mem_append.1 hq with h1 | h1
      · exact Nat.lt_succ_of_lt (h q h1)
      · simp only [List.mem_singleton] at h1
        subst h1
        exact Nat.lt_succ_self _)
    refine ⟨res, ?_, ?_⟩
    · simp only [paramsSetInitGo, hany, Bool.false_eq_true, if_false, setAddObj]
      exact hres
    · rw [hlen]
      simp
      omega

/-- C7: the duplicate check of the registry constructor is dead code.
The base constructor accepts a pair list with a repeated stage name
without raising and keeps one object per catalog item, so the length
equals the item count even with repeats; and the external three-level
flattening collapses two entries whose dotted names coincide into one
flat dict entry before the check could even see them. In the code a
DuplicateError is never raised. -/
theorem c7_duplicate_check_dead (cat : List (String × Nat)) :
    (∃ res, paramsSetInit cat = .ok res ∧ res.length = cat.length) ∧
    paramsSetInit [("stage", 1), ("stage", 1)] = .ok [⟨0, "stage"⟩, ⟨1, "stage"⟩] ∧
    externalFlatten [("a", [("b.c", [("d", 1)])]), ("a.b", [("c", [("d", 2)])])]
      = [("a.b.c.d", 2)] := by
  refine ⟨?_, rfl, rfl⟩
  obtain ⟨res, hres, hlen⟩ := paramsSetInitGo_ok cat [] 0 (by simp)
  exact ⟨res, hres, by simpa using hlen⟩

/-- C2 counterexample: a settings document whose second input override
requests an unsupported format makes merge raise ValueError, but the
first override has already been applied by then, so the input set of
the descriptor is changed by the rejecting call. -/
theorem c2_partial_mutation_counterexample :
    (Params.merge ⟨"stage", "/out", [⟨"a", ["f1"], none⟩, ⟨"b", ["f2"], none⟩], [], []⟩
        ⟨[⟨"a", ["f1"], some "/data"⟩, ⟨"b", ["f3"], none⟩], []⟩).1 = some .valueError ∧
    (Params.merge ⟨"stage", "/out", [⟨"a", ["f1"], none⟩, ⟨"b", ["f2"], none⟩], [], []⟩
        ⟨[⟨"a", ["f1"], some "/data"⟩, ⟨"b", ["f3"], none⟩], []⟩).2.input
      ≠ [⟨"a", ["f1"], none⟩, ⟨"b", ["f2"], none⟩] := by
  constructor
  · rfl
  · decide

/-- C2 (amended): merge raises ValueError for an input override whose
requested format is not in the accepted format list of the matching
input, and when the offending override is the first entry of the
document the whole descriptor (input, output and parameter sets) is
returned exactly unchanged; an offending override that comes later
still raises, but the earlier overrides have been applied by then. -/
theorem c2_merge_reject_head (p : Params) (u : UserInput)
    (rest : List UserInput) (pl : List (List (String × String))) (io : Input)
    (hfind : p.input.find? (fun e => e.datatype == u.datatype) = some io)
    (f : String) (hf : f ∈ u.format) (hnot : f ∉ io.format) :
    Params.merge p ⟨u :: rest, pl⟩ = (some .valueError, p) := by
  have hgo : mergeInputsGo p.input (u :: rest) = (some .valueError, p.input) := by
    have hex : ¬ (∀ x ∈ u.format, x ∈ io.format) := fun hx => hnot (hx f hf)
    unfold mergeInputsGo
    rw [hfind]
    simp [hex]
  unfold Params.merge
  rw [hgo]

/-- C2 witness: a concrete descriptor with one offending override is
rejected with ValueError and returned unchanged. -/
theorem c2_merge_reject_head_witness :
    Params.merge ⟨"stage", "/out", [⟨"a", ["f1"], none⟩], [], []⟩
        ⟨[⟨"a", ["f9"], none⟩], []⟩
      = (some .valueError, ⟨"stage", "/out", [⟨"a", ["f1"], none⟩], [], []⟩) :=
  c2_merge_reject_head _ _ _ _ ⟨"a", ["f1"], none⟩ rfl "f9" (by decide) (by decide)

/-- Lookup misses every dict whose keys avoid the requested key. -/
theorem dictGet_eq_none_of_not_mem {β : Type} (d : List (String × β)) (k : String)
    (h : k ∉ d.map Prod.fst) : dictGet d k = none := by
  unfold dictGet
  have hnone : d.find? (fun kv => kv.fst == k) = none :=
    List.find?_eq_none.2 (fun x hx hbe => h (by
      have hxk : x.fst = k := by simpa using hbe
      exact hxk ▸ List.mem_map_of_mem Prod.fst hx))
  rw [hnone]
  rfl

/-- After an overwriting assignment, the search for the key hits the
fresh pair. -/
theorem find?_map_overwrite {β : Type} (d : List (String × β)) (k : String) (v : β)
    (h : d.any (fun kv => kv.fst == k) = true) :
    (d.map (fun kv => if kv.fst == k then (k, v) else kv)).find?
        (fun kv => kv.fst == k) = some (k, v) := by
  induction d with
  | nil => simp at h
  | cons kv rest ih =>
    by_cases hk : (kv.fst == k) = true
    · rw [List.map_cons, if_pos hk]
      exact List.find?_cons_of_pos _ (by simp)
    · rw [List.map_cons, if_neg hk,
        @List.find?_cons_of_neg _ (fun kv => kv.fst == k) kv _ hk]
      exact ih (by simpa [hk] using h)

/-- An overwriting assignment of one key leaves the search for any
other key untouched. -/
theorem find?_map_overwrite_ne {β : Type} (d : List (String × β)) (k k2 : String) (v : β)
    (hne : k2 ≠ k) :
    (d.map (fun kv => if kv.fst == k then (k, v) else kv)).find?
        (fun kv => kv.fst == k2) = d.find? (fun kv => kv.fst == k2) := by
  induction d with
  | nil => rfl
  | cons kv rest ih =>
    by_cases hk : (kv.fst == k) = true
    · have hkv : kv.fst = k := by simpa using hk
      have hk2 : ¬ (kv.fst == k2) = true := by
        simp only [hkv, beq_iff_eq]
        exact fun he => hne he.symm
      have hk2b : ¬ (((k, v) : String × β).fst == k2) = true := by
        simp only [beq_iff_eq]
        exact fun he => hne he.symm
      rw [List.map_cons, if_pos hk,
        @List.find?_cons_of_neg _ (fun kv => kv.fst == k2) (k, v) _ hk2b,
        @List.find?_cons_of_neg _ (fun kv => kv.fst == k2) kv _ hk2, ih]
    · rw [List.map_cons, if_neg hk]
      by_cases hq : (kv.fst == k2) = true
      · rw [@List.find?_cons_of_pos _ (fun kv => kv.fst == k2) kv _ hq,
          @List.find?_cons_of_pos _ (fun kv => kv.fst == k2) kv _ hq]
      · rw [@List.find?_cons_of_neg _ (fun kv => kv.fst == k2) kv _ hq,
          @List.find?_cons_of_neg _ (fun kv => kv.fst == k2) kv _ hq, ih]

/-- Assignment of a key makes lookup of that key return the new value. -/
theorem dictGet_dictInsert_self {β : Type} (d : List (String × β)) (k : String) (v : β) :
    dictGet (dictInsert d k v) k = some v := by
  unfold dictInsert
  by_cases h : d.any (fun kv => kv.fst == k) = true
  · rw [if_pos h]
    unfold dictGet
    rw [find?_map_overwrite d k v h]
    rfl
  · rw [if_neg h]
    unfold dictGet
    rw [List.find?_append]
    have hnone : d.find? (fun kv => kv.fst == k) = none :=
      List.find?_eq_none.2 (List.any_eq_false.1 (Bool.eq_false_iff.2 h))
    rw [hnone]
    simp

/-- Assignment of a key leaves lookup of any other key unchanged. -/
theorem dictGet_dictInsert_ne {β : Type} (d : List (String × β)) (k k2 : String) (v : β)
    (hne : k2 ≠ k) : dictGet (dictInsert d k v) k2 = dictGet d k2 := by
  unfold dictInsert
  by_cases h : d.any (fun kv => kv.fst == k) = true
  · rw [if_pos h]
    unfold dictGet
    rw [find?_map_overwrite_ne d k k2 v hne]
  · rw [if_neg h]
    unfold dictGet
    rw [List.find?_append]
    have h1 : ([(k, v)] : List (String × β)).find? (fun kv => kv.fst == k2) = none := by
      rw [List.find?_eq_none]
      intro x hx
      simp only [List.mem_singleton] at hx
      subst hx
      simp only [beq_iff_eq]
      exact fun he => hne he.symm
    rw [h1]
    simp

/-- The dict produced by double unpacking looks a key up in the right
dict first and in the left dict on a miss, as long as the right dict
has the unique keys a Python dict guarantees. -/
theorem dictGet_dictMerge {β : Type} (a b : List (String × β))
    (hb : (b.map Prod.fst).Nodup) (k : String) :
    dictGet (dictMerge a b) k = (dictGet b k).or (dictGet a k) := by
  induction b generalizing a with
  | nil => simp [dictMerge, dictGet]
  | cons kv rest ih =>
    have hnd : (rest.map Prod.fst).Nodup := (List.nodup_cons.1 (by simpa using hb)).2
    have hknotin : kv.fst ∉ rest.map Prod.fst := (List.nodup_cons.1 (by simpa using hb)).1
    have hstep : dictMerge a (kv :: rest) = dictMerge (dictInsert a kv.fst kv.snd) rest := rfl
    rw [hstep, ih (dictInsert a kv.fst kv.snd) hnd]
    by_cases hk : k = kv.fst
    · subst hk
      rw [dictGet_eq_none_of_not_mem rest kv.fst hknotin, dictGet_dictInsert_self]
      have hhd : dictGet (kv :: rest) kv.fst = some kv.snd := by
        unfold dictGet
        rw [List.find?_cons_of_pos _ (by simp)]
        rfl
      rw [hhd]
      rfl
    · rw [dictGet_dictInsert_ne a kv.fst k kv.snd hk]
      have hhd : dictGet (kv :: rest) k = dictGet rest k := by
        unfold dictGet
        rw [@List.find?_cons_of_neg _ (fun x => x.fst == k) kv _ (by
          simp only [beq_iff_eq]
          exact fun he => hk he.symm)]
      rw [hhd]

/-- In a set of parameter records with pairwise distinct process names,
erasing a member removes its process name from the name list. -/
theorem process_not_mem_erase (ps : List Parameters) (item : Parameters)
    (hnd : (ps.map Parameters.process).Nodup) (hmem : item ∈ ps) :
    item.process ∉ (ps.erase item).map Parameters.process := by
  induction ps with
  | nil => simp at hmem
  | cons a rest ih =>
    by_cases hae : a = item
    · subst hae
      rw [List.erase_cons_head]
      exact (List.nodup_cons.1 (by simpa using hnd)).1
    · have hm : item ∈ rest := by
        rcases List.mem_cons.1 hmem with h1 | h1
        · exact absurd h1.symm hae
        · exact h1
      rw [List.erase_cons_tail (by simpa using hae)]
      intro hmm
      simp only [List.map_cons, List.mem_cons] at hmm
      rcases hmm with h2 | h2
      · have h3 : item.process ∈ rest.map Parameters.process :=
          List.mem_map_of_mem _ hm
        have h4 : a.process ∉ rest.map Parameters.process :=
          (List.nodup_cons.1 (by simpa using hnd)).1
        exact h4 (h2 ▸ h3)
      · exact ih (List.nodup_cons.1 (by simpa using hnd)).2 hm h2

/-- C6: for every descriptor with pairwise distinct parameter process
names and every single parameter override dict naming an existing
process, merge succeeds; afterwards the matching record carries the
original param map shallow-merged with the whole override dict, the
override winning on shared keys and the untouched keys keeping their
old values; every other record survives and the input and output sets
are untouched. -/
theorem c6_merge_parameter_override (p : Params) (u : List (String × String))
    (procName : String) (item : Parameters)
    (hu : dictGet u "process" = some procName)
    (hku : (u.map Prod.fst).Nodup)
    (hnd : (p.parameters.map Parameters.process).Nodup)
    (hfind : p.parameters.find? (fun e => e.process == procName) = some item) :
    ∃ q, Params.merge p ⟨[], [u]⟩ = (none, q) ∧
      q.input = p.input ∧ q.output = p.output ∧
      Params.getParameters q item.process
        = some ⟨item.process, dictMerge item.params u⟩ ∧
      (∀ k v, dictGet u k = some v → dictGet (dictMerge item.params u) k = some v) ∧
      (∀ k, dictGet u k = none →
        dictGet (dictMerge item.params u) k = dictGet item.params k) ∧
      (∀ r ∈ p.parameters, r ≠ item → r ∈ q.parameters) := by
  have hitem : item ∈ p.parameters := List.mem_of_find?_eq_some hfind
  have hnot : item.process ∉ (p.parameters.erase item).map Parameters.process :=
    process_not_mem_erase p.parameters item hnd hitem
  have hni : (⟨item.process, dictMerge item.params u⟩ : Parameters)
      ∉ p.parameters.erase item := fun hmm =>
    hnot (by simpa using List.mem_map_of_mem Parameters.process hmm)
  have hadd : setAdd (p.parameters.erase item) ⟨item.process, dictMerge item.params u⟩
      = p.parameters.erase item ++ [⟨item.process, dictMerge item.params u⟩] := by
    simp [setAdd, hni]
  have hgo : mergeParamsGo p.parameters [u]
      = (none, setAdd (p.parameters.erase item)
          ⟨item.process, dictMerge item.params u⟩) := by
    unfold mergeParamsGo
    rw [hu]
    simp only []
    rw [hfind]
    rfl
  refine ⟨{ p with parameters := p.parameters.erase item
              ++ [⟨item.process, dictMerge item.params u⟩] },
    ?_, rfl, rfl, ?_, ?_, ?_, ?_⟩
  · unfold Params.merge
    have h1 : mergeInputsGo p.input ([] : List UserInput) = (none, p.input) := rfl
    rw [h1, hgo, hadd]
  · unfold Params.getParameters
    simp only []
    rw [List.find?_append]
    have h1 : (p.parameters.erase item).find?
        (fun e => e.process == item.process) = none := by
      rw [List.find?_eq_none]
      intro x hx hbe
      exact hnot (by
        have hxp : x.process = item.process := by simpa using hbe
        exact hxp ▸ List.mem_map_of_mem _ hx)
    rw [h1]
    simp
  · intro k v hkv
    rw [dictGet_dictMerge item.params u hku k, hkv]
    rfl
  · intro k hk
    rw [dictGet_dictMerge item.params u hku k, hk]
    rfl
  · intro r hr hne
    exact List.mem_append_left _ ((List.mem_erase_of_ne hne).2 hr)

/-- C6 witness: a concrete descriptor and override; the record named p1
afterwards carries the merged dict, the override winning on the shared
key y and the process key of the override dict carried along. -/
theorem c6_merge_parameter_override_witness :
    Params.getParameters
      (Params.merge ⟨"s", "/o", [], [], [⟨"p1", [("x", "1"), ("y", "2")]⟩]⟩
        ⟨[], [[("process", "p1"), ("y", "9")]]⟩).2 "p1"
      = some ⟨"p1", [("x", "1"), ("y", "9"), ("process", "p1")]⟩ := by
  obtain ⟨q, hq, -, -, hget, -, -, -⟩ :=
    c6_merge_parameter_override ⟨"s", "/o", [], [], [⟨"p1", [("x", "1"), ("y", "2")]⟩]⟩
      [("process", "p1"), ("y", "9")] "p1" ⟨"p1", [("x", "1"), ("y", "2")]⟩
      rfl (by decide) (by decide) rfl
  rw [hq]
  exact hget

/-- Assignment of a key that no pair of the dict carries appends. -/
theorem dictInsert_fresh {β : Type} (d : List (String × β)) (k : String) (v : β)
    (h : ∀ kv ∈ d, kv.fst ≠ k) : dictInsert d k v = d ++ [(k, v)] := by
  unfold dictInsert
  rw [if_neg]
  intro hany
  obtain ⟨x, hx, hbe⟩ := List.any_eq_true.1 hany
  exact h x hx (by simpa using hbe)

/-- Folding the parameter records into a dict whose keys avoid every
process name appends one pair per record, in order. -/
theorem foldl_params_fresh (prs : List Parameters) :
    ∀ (d : List (String × DVal)),
      (∀ pr ∈ prs, ∀ kv ∈ d, kv.fst ≠ pr.process) →
      (prs.map Parameters.process).Nodup →
      prs.foldl (fun d2 pr => dictInsert d2 pr.process (.pmap pr.params)) d
        = d ++ prs.map (fun pr => (pr.process, DVal.pmap pr.params)) := by
  induction prs with
  | nil =>
    intro d _ _
    simp
  | cons pr rest ih =>
    intro d hfresh hnd
    have hfr : ∀ q ∈ rest, ∀ kv ∈ d ++ [(pr.process, DVal.pmap pr.params)],
        kv.fst ≠ q.process := by
      intro q hq kv hkv
      rcases List.mem_append.1 hkv with h1 | h1
      · exact hfresh q (by simp [hq]) kv h1
      · simp only [List.mem_singleton] at h1
        subst h1
        have h2 : q.process ∈ rest.map Parameters.process := List.mem_map_of_mem _ hq
        have h3 : pr.process ∉ rest.map Parameters.process :=
          (List.nodup_cons.1 (by simpa using hnd)).1
        intro he
        have he2 : pr.process = q.process := he
        exact h3 (he2 ▸ h2)
    rw [List.foldl_cons, dictInsert_fresh d pr.process (DVal.pmap pr.params)
        (fun kv hkv => hfresh pr (by simp) kv hkv),
      ih (d ++ [(pr.process, DVal.pmap pr.params)]) hfr
        ((List.nodup_cons.1 (by simpa using hnd)).2)]
    simp

/-- In the entry list built from records with pairwise distinct process
names, the search for the name of a member finds its entry. -/
theorem find?_param_entries (prs : List Parameters) (pr : Parameters)
    (hnd : (prs.map Parameters.process).Nodup) (hmem : pr ∈ prs) :
    (prs.map (fun q => (q.process, DVal.pmap q.params))).find?
        (fun kv => kv.fst == pr.process) = some (pr.process, .pmap pr.params) := by
  induction prs with
  | nil => simp at hmem
  | cons q rest ih =>
    rcases List.mem_cons.1 hmem with rfl | hm
    · rw [List.map_cons]
      exact List.find?_cons_of_pos _ (by simp)
    · have hqp : ¬ (q.process == pr.process) = true := by
        simp only [beq_iff_eq]
        intro he
        have h1 : pr.process ∈ rest.map Parameters.process := List.mem_map_of_mem _ hm
        exact (List.nodup_cons.1 (by simpa using hnd)).1 (he ▸ h1)
      rw [List.map_cons, @List.find?_cons_of_neg _ (fun kv => kv.fst == pr.process)
        (q.process, DVal.pmap q.params) _ hqp]
      exact ih (List.nodup_cons.1 (by simpa using hnd)).2 hm

/-- C3 counterexample: on a concrete descriptor that passes the IO
verification, the top-level keys of the returned dict are input,
output, output_dir and the process name p1; the declared input datatype
otu is not a top-level key (it sits nested under the input key), so the
keys are not one per declared datatype. -/
theorem c3_nested_keys_counterexample :
    (Params.dictProp
        ⟨"stage", "/outdir", [⟨"otu", ["tsv"], some "/data/in"⟩],
          [⟨"net", ["json"], some "/outdir/net"⟩], [⟨"p1", [("k", "v")]⟩]⟩
        (fun s => s == "/data/in")).map (fun d => d.map Prod.fst)
      = .ok ["input", "output", "output_dir", "p1"] ∧
    "otu" ∉ (["input", "output", "output_dir", "p1"] : List String) := by
  exact ⟨rfl, by decide⟩

/-- C3 (amended): for every descriptor that passes verify_io and whose
parameter process names are pairwise distinct and distinct from the
three reserved keys, the dict property returns a mapping whose
top-level keys are exactly input, output, output_dir and one key per
parameter process name; the input key holds the datatype-to-location
dict of the inputs, the output key the one of the outputs, output_dir
holds the stage output location, and each process key holds its param
map. -/
theorem c3_dict_keys (p : Params) (fs : String → Bool)
    (hv : Params.verifyPaths p fs = none)
    (hnd : (p.parameters.map Parameters.process).Nodup)
    (hdisj : ∀ pr ∈ p.parameters,
      pr.process ≠ "input" ∧ pr.process ≠ "output" ∧ pr.process ≠ "output_dir") :
    ∃ d, Params.dictProp p fs = .ok d ∧
      d.map Prod.fst
        = "input" :: "output" :: "output_dir" :: p.parameters.map Parameters.process ∧
      dictGet d "input" = some (.iomap (inputMap p.input)) ∧
      dictGet d "output" = some (.iomap (outputMap p.output)) ∧
      dictGet d "output_dir" = some (.path p.output_location) ∧
      (∀ pr ∈ p.parameters, dictGet d pr.process = some (.pmap pr.params)) := by
  have hfold : p.parameters.foldl (fun d2 pr => dictInsert d2 pr.process (.pmap pr.params))
      [("input", .iomap (inputMap p.input)), ("output", .iomap (outputMap p.output)),
       ("output_dir", .path p.output_location)]
      = [("input", DVal.iomap (inputMap p.input)), ("output", .iomap (outputMap p.output)),
         ("output_dir", .path p.output_location)]
        ++ p.parameters.map (fun pr => (pr.process, DVal.pmap pr.params)) := by
    apply foldl_params_fresh p.parameters _ _ hnd
    intro pr hpr kv hkv
    obtain ⟨h1, h2, h3⟩ := hdisj pr hpr
    simp only [List.mem_cons, List.mem_singleton, List.not_mem_nil, or_false] at hkv
    rcases hkv with rfl | rfl | rfl
    · exact fun he => h1 he.symm
    · exact fun he => h2 he.symm
    · exact fun he => h3 he.symm
  have hd : Params.dictProp p fs
      = .ok ([("input", DVal.iomap (inputMap p.input)),
          ("output", .iomap (outputMap p.output)),
          ("output_dir", .path p.output_location)]
        ++ p.parameters.map (fun pr => (pr.process, DVal.pmap pr.params))) := by
    unfold Params.dictProp
    rw [hv]
    simp only []
    rw [hfold]
  refine ⟨_, hd, ?_, ?_, ?_, ?_, ?_⟩
  · simp [List.map_map]
  · unfold dictGet
    rw [List.find?_append]
    have h1 : ([("input", DVal.iomap (inputMap p.input)),
        ("output", DVal.iomap (outputMap p.output)),
        ("output_dir", DVal.path p.output_location)]).find?
        (fun kv => kv.fst == "input") = some ("input", DVal.iomap (inputMap p.input)) := rfl
    rw [h1]
    rfl
  · unfold dictGet
    rw [List.find?_append]
    have h1 : ([("input", DVal.iomap (inputMap p.input)),
        ("output", DVal.iomap (outputMap p.output)),
        ("output_dir", DVal.path p.output_location)]).find?
        (fun kv => kv.fst == "output") = some ("output", DVal.iomap (outputMap p.output)) := rfl
    rw [h1]
    rfl
  · unfold dictGet
    rw [List.find?_append]
    have h1 : ([("input", DVal.iomap (inputMap p.input)),
        ("output", DVal.iomap (outputMap p.output)),
        ("output_dir", DVal.path p.output_location)]).find?
        (fun kv => kv.fst == "output_dir")
        = some ("output_dir", DVal.path p.output_location) := rfl
    rw [h1]
    rfl
  · intro pr hpr
    obtain ⟨h1, h2, h3⟩ := hdisj pr hpr
    unfold dictGet
    rw [List.find?_append]
    have h0 : ([("input", DVal.iomap (inputMap p.input)),
        ("output", DVal.iomap (outputMap p.output)),
        ("output_dir", DVal.path p.output_location)]).find?
        (fun kv => kv.fst == pr.process) = none := by
      rw [List.find?_eq_none]
      intro x hx
      simp only [List.mem_cons, List.mem_singleton, List.not_mem_nil, or_false] at hx
      rcases hx with rfl | rfl | rfl
      · simp only [beq_iff_eq]
        exact fun he => h1 he.symm
      · simp only [beq_iff_eq]
        exact fun he => h2 he.symm
      · simp only [beq_iff_eq]
        exact fun he => h3 he.symm
    rw [h0, find?_param_entries p.parameters pr hnd hpr]
    rfl

/-- C3 witness: a concrete descriptor; the keys and the values of its
materialized dict. -/
theorem c3_dict_keys_witness :
    ∃ d, Params.dictProp
        ⟨"stage", "/outdir", [⟨"otu", ["tsv"], some "/data/in"⟩],
          [⟨"net", ["json"], some "/outdir/net"⟩], [⟨"p1", [("k", "v")]⟩]⟩
        (fun s => s == "/data/in") = .ok d ∧
      d.map Prod.fst = "input" :: "output" :: "output_dir"
        :: [⟨"p1", [("k", "v")]⟩].map Parameters.process ∧
      dictGet d "input" = some (.iomap (inputMap [⟨"otu", ["tsv"], some "/data/in"⟩])) ∧
      dictGet d "output" = some (.iomap (outputMap [⟨"net", ["json"], some "/outdir/net"⟩])) ∧
      dictGet d "output_dir" = some (.path "/outdir") ∧
      (∀ pr ∈ ([⟨"p1", [("k", "v")]⟩] : List Parameters),
        dictGet d pr.process = some (.pmap pr.params)) :=
  c3_dict_keys
    ⟨"stage", "/outdir", [⟨"otu", ["tsv"], some "/data/in"⟩],
      [⟨"net", ["json"], some "/outdir/net"⟩], [⟨"p1", [("k", "v")]⟩]⟩
    (fun s => s == "/data/in") rfl (by decide) (by decide)

/-- A location copy keeps the datatype of an input. -/
theorem updCopy_datatype (prev : Params) (i : Input) :
    (updCopy prev i).datatype = i.datatype := by
  unfold updCopy
  cases h : Params.getOutput prev i.datatype
  · rfl
  · rfl

/-- A second location copy changes nothing. -/
theorem updCopy_idem (prev : Params) (i : Input) :
    updCopy prev (updCopy prev i) = updCopy prev i := by
  cases h : Params.getOutput prev i.datatype with
  | none =>
    have h1 : updCopy prev i = i := by
      unfold updCopy
      rw [h]
    rw [h1, h1]
  | some o =>
    have h1 : updCopy prev i = ⟨i.datatype, i.format, o.location⟩ := by
      unfold updCopy
      rw [h]
    rw [h1]
    simp only [updCopy]
    rw [h]

/-- The attach loop walked over the snapshot of inputs that remain to
be processed: the already processed inputs sit behind the remaining
ones carrying their copied locations, and each step moves the head of
the remaining list to the back with the location of its matching
output installed. -/
theorem attachGo_eq (prev : Params) (l : List Input) :
    ∀ (done : List Input) (p : Params),
      p.input = l ++ done →
      ((l ++ done).map Input.datatype).Nodup →
      (∀ i ∈ l, ∃ o, Params.getOutput prev i.datatype = some o) →
      attachGo prev l p = .ok { p with input := done ++ l.map (updCopy prev) } := by
  induction l with
  | nil =>
    intro done p hp _ _
    simp only [List.nil_append] at hp
    simp only [attachGo, List.map_nil, List.append_nil]
    rw [← hp]
  | cons i l2 ih =>
    intro done p hp hnd hall
    obtain ⟨o, ho⟩ := hall i (by simp)
    have hfind : p.input.find? (fun e => e.datatype == i.datatype) = some i := by
      rw [hp]
      exact List.find?_cons_of_pos _ (by simp)
    have hdtn : i.datatype ∉ (l2 ++ done).map Input.datatype :=
      (List.nodup_cons.1 (by simpa using hnd)).1
    have hnew : (⟨i.datatype, i.format, o.location⟩ : Input) ∉ l2 ++ done := fun hmm =>
      hdtn (by simpa using List.mem_map_of_mem Input.datatype hmm)
    have herase : p.input.erase i = l2 ++ done := by
      rw [hp, List.cons_append, List.erase_cons_head]
    have hupd : Params.update_location_input p i.datatype o.location
        = .ok { p with input := (l2 ++ done) ++ [⟨i.datatype, i.format, o.location⟩] } := by
      unfold Params.update_location_input Params.getInput
      rw [hfind]
      simp only []
      rw [herase]
      simp [setAdd, hnew]
    have hnd2 : ((l2 ++ (done ++ [(⟨i.datatype, i.format, o.location⟩ : Input)])).map
        Input.datatype).Nodup := by
      have hsrc : (i.datatype :: (l2 ++ done).map Input.datatype).Nodup := by
        simpa using hnd
      have hperm : ((l2 ++ done).map Input.datatype ++ [i.datatype]).Nodup :=
        (List.perm_append_singleton _ _).symm.nodup hsrc
      simpa [List.map_append, List.append_assoc] using hperm
    have hall2 : ∀ j ∈ l2, ∃ o2, Params.getOutput prev j.datatype = some o2 :=
      fun j hj => hall j (by simp [hj])
    have hstep := ih (done ++ [⟨i.datatype, i.format, o.location⟩])
      { p with input := (l2 ++ done) ++ [⟨i.datatype, i.format, o.location⟩] }
      (by simp [List.append_assoc]) hnd2 hall2
    have hupdc : updCopy prev i = ⟨i.datatype, i.format, o.location⟩ := by
      unfold updCopy
      rw [ho]
    unfold attachGo
    rw [ho]
    simp only []
    rw [hupd]
    simp only []
    rw [hstep]
    simp [hupdc, List.append_assoc]

/-- The only exception update_location can raise is the KeyError of
its internal get. -/
theorem update_location_input_error (p : Params) (name : String) (loc : Option String)
    (e : PyErr) (h : Params.update_location_input p name loc = .error e) :
    e = .keyError := by
  cases hf : Params.getInput p name with
  | none =>
    have h1 : Params.update_location_input p name loc = .error .keyError := by
      unfold Params.update_location_input
      rw [hf]
    rw [h1] at h
    injection h with h2
    exact h2.symm
  | some i =>
    have h1 : Params.update_location_input p name loc
        = .ok { p with input := setAdd (p.input.erase i) ⟨i.datatype, i.format, loc⟩ } := by
      unfold Params.update_location_input
      rw [hf]
    rw [h1] at h
    cases h

/-- The attach loop raises KeyError as soon as a remaining input has no
same-datatype output in the previous stage. -/
theorem attachGo_error (prev : Params) (l : List Input) :
    ∀ (p : Params), (∃ i ∈ l, Params.getOutput prev i.datatype = none) →
      attachGo prev l p = .error .keyError := by
  induction l with
  | nil =>
    intro p h
    simp at h
  | cons i l2 ih =>
    intro p h
    cases ho : Params.getOutput prev i.datatype with
    | none =>
      unfold attachGo
      rw [ho]
    | some o =>
      have hrest : ∃ i2 ∈ l2, Params.getOutput prev i2.datatype = none := by
        rcases h with ⟨i2, hi2, hno⟩
        rcases List.mem_cons.1 hi2 with rfl | hm
        · rw [ho] at hno
          cases hno
        · exact ⟨i2, hm, hno⟩
      cases hu : Params.update_location_input p i.datatype o.location with
      | error e =>
        have he : e = .keyError :=
          update_location_input_error p i.datatype o.location e hu
        subst he
        unfold attachGo
        rw [ho]
        simp only []
        rw [hu]
      | ok p2 =>
        unfold attachGo
        rw [ho]
        simp only []
        rw [hu]
        simp only []
        exact ih p2 hrest

/-- C5: on descriptors whose input datatypes are pairwise distinct (the
declared set invariant of the data model), attach_to against a
predecessor that offers a same-datatype output for every input
succeeds, sets every input to the copy carrying the location of that
output, and is idempotent: running it again on the result returns the
same descriptor with the same input locations; and when some input
datatype has no matching output, attach_to fails with exactly the
KeyError of the lookup (the NotFoundError of the specification). -/
theorem c5_attach_to (p prev : Params)
    (hnd : (p.input.map Input.datatype).Nodup) :
    ((∀ i ∈ p.input, ∃ o, Params.getOutput prev i.datatype = some o) →
      ∃ res, Params.attach_to p prev = .ok res ∧
        res.input = p.input.map (updCopy prev) ∧
        (∀ i ∈ p.input, ∀ o, Params.getOutput prev i.datatype = some o →
          (⟨i.datatype, i.format, o.location⟩ : Input) ∈ res.input) ∧
        Params.attach_to res prev = .ok res) ∧
    ((∃ i ∈ p.input, Params.getOutput prev i.datatype = none) →
      Params.attach_to p prev = .error .keyError) := by
  constructor
  · intro hall
    have h1 := attachGo_eq prev p.input [] p (by simp) (by simpa using hnd) hall
    refine ⟨{ p with input := p.input.map (updCopy prev) }, ?_, rfl, ?_, ?_⟩
    · unfold Params.attach_to
      rw [h1]
      simp
    · intro i hi o ho
      have hupdc : updCopy prev i = ⟨i.datatype, i.format, o.location⟩ := by
        unfold updCopy
        rw [ho]
      exact hupdc ▸ List.mem_map_of_mem (updCopy prev) hi
    · have hdt : (p.input.map (updCopy prev)).map Input.datatype
          = p.input.map Input.datatype := by
        rw [List.map_map]
        exact List.map_congr_left (fun i _ => updCopy_datatype prev i)
      have hnd2 : ((p.input.map (updCopy prev)).map Input.datatype).Nodup := by
        rw [hdt]
        exact hnd
      have hall2 : ∀ j ∈ p.input.map (updCopy prev), ∃ o,
          Params.getOutput prev j.datatype = some o := by
        intro j hj
        obtain ⟨i, hi, rfl⟩ := List.mem_map.1 hj
        rw [updCopy_datatype]
        exact hall i hi
      have h2 := attachGo_eq prev (p.input.map (updCopy prev)) []
        { p with input := p.input.map (updCopy prev) }
        (List.append_nil _).symm (by simpa using hnd2) hall2
      have hmap : (p.input.map (updCopy prev)).map (updCopy prev)
          = p.input.map (updCopy prev) := by
        rw [List.map_map]
        exact List.map_congr_left (fun i _ => updCopy_idem prev i)
      show attachGo prev ({ p with input := p.input.map (updCopy prev) } : Params).input
        { p with input := p.input.map (updCopy prev) }
        = .ok { p with input := p.input.map (updCopy prev) }
      rw [show ({ p with input := p.input.map (updCopy prev) } : Params).input
        = p.input.map (updCopy prev) from rfl]
      rw [h2]
      simp [hmap]
  · intro hmiss
    unfold Params.attach_to
    exact attachGo_error prev p.input p hmiss

/-- C5 witness: a two-stage pair with matching datatype x; attaching
copies the concrete output location in and a second attach returns the
same descriptor. A second pair whose input datatype y has no output in
the predecessor fails with KeyError. -/
theorem c5_attach_to_witness :
    (∃ res, Params.attach_to ⟨"b", "/o2", [⟨"x", ["f"], none⟩], [], []⟩
        ⟨"a", "/o1", [], [⟨"x", ["f"], some "/o1/x"⟩], []⟩ = .ok res ∧
      res.input = [⟨"x", ["f"], none⟩].map
        (updCopy ⟨"a", "/o1", [], [⟨"x", ["f"], some "/o1/x"⟩], []⟩) ∧
      (∀ i ∈ ([⟨"x", ["f"], none⟩] : List Input), ∀ o,
        Params.getOutput ⟨"a", "/o1", [], [⟨"x", ["f"], some "/o1/x"⟩], []⟩ i.datatype
          = some o → (⟨i.datatype, i.format, o.location⟩ : Input) ∈ res.input) ∧
      Params.attach_to res ⟨"a", "/o1", [], [⟨"x", ["f"], some "/o1/x"⟩], []⟩ = .ok res) ∧
    Params.attach_to ⟨"c", "/o3", [⟨"y", ["f"], none⟩], [], []⟩
        ⟨"a", "/o1", [], [⟨"x", ["f"], some "/o1/x"⟩], []⟩ = .error .keyError :=
  ⟨(c5_attach_to ⟨"b", "/o2", [⟨"x", ["f"], none⟩], [], []⟩
      ⟨"a", "/o1", [], [⟨"x", ["f"], some "/o1/x"⟩], []⟩ (by decide)).1
    (by
      intro i hi
      simp only [List.mem_singleton] at hi
      subst hi
      exact ⟨⟨"x", ["f"], some "/o1/x"⟩, rfl⟩),
   (c5_attach_to ⟨"c", "/o3", [⟨"y", ["f"], none⟩], [], []⟩
      ⟨"a", "/o1", [], [⟨"x", ["f"], some "/o1/x"⟩], []⟩ (by decide)).2
    ⟨⟨"y", ["f"], none⟩, by simp, rfl⟩⟩

end Mindpipe
